import Mathlib

/-!
Verification of the speech-orchestration core of an interactive AI tutoring
client.  The definitions below are a shallow embedding of the TypeScript
source: the speech-output hook (useSpeechSynthesis.ts), the session
orchestrator (App.tsx) and the content-provider service layer.  Machine
behaviour that the claims do not touch (voice selection, random mouth shapes
at word boundaries, rendering) is omitted; everything a claim mentions is
translated faithfully from the source.
-/

/-! ## Text preprocessing (useSpeechSynthesis.ts, preprocessTextForSpeech)

The source applies two global regex replacements before synthesis:
  1. `/(\d+)\.(\d+)/g` becomes `"<int> point <fraction digits spaced>"`;
  2. `/use/gi` becomes `"yuuzh"` (case-insensitive, no word boundary).
`decimalPassAux` is the left-to-right scanner equivalent of the first
replacement (the fuel argument only discharges termination; one character is
consumed per step, so `length` fuel is always sufficient).  `usePass` is the
second replacement. -/

def decimalPassAux : Nat → List Char → List Char
  | _, [] => []
  | 0, rest => rest
  | Nat.succ fuel, c :: rest =>
    if c.isDigit then
      match rest.dropWhile Char.isDigit with
      | '.' :: rest2 =>
        let frac := rest2.takeWhile Char.isDigit
        if frac.isEmpty then
          (c :: rest.takeWhile Char.isDigit) ++ '.' :: decimalPassAux fuel rest2
        else
          (c :: rest.takeWhile Char.isDigit) ++ (" point ").toList ++ frac.intersperse ' '
            ++ decimalPassAux fuel (rest2.dropWhile Char.isDigit)
      | r1 => (c :: rest.takeWhile Char.isDigit) ++ decimalPassAux fuel r1
    else
      c :: decimalPassAux fuel rest

def usePass : List Char → List Char
  | c1 :: c2 :: c3 :: rest =>
    if (c1 == 'u' || c1 == 'U') && (c2 == 's' || c2 == 'S') && (c3 == 'e' || c3 == 'E') then
      'y' :: 'u' :: 'u' :: 'z' :: 'h' :: usePass rest
    else
      c1 :: usePass (c2 :: c3 :: rest)
  | [c1, c2] => [c1, c2]
  | [c] => [c]
  | [] => []

def preprocessTextForSpeech (text : String) : String :=
  String.mk (usePass (decimalPassAux text.toList.length text.toList))

example : preprocessTextForSpeech "2.5 use it" = "2 point 5 yuuzh it" := by decide
example : preprocessTextForSpeech "12.34" = "12 point 3 4" := by decide
example : preprocessTextForSpeech "example.com" = "example.com" := by decide

/-! ## Speech Output Engine state (useSpeechSynthesis.ts)

The hook keeps `isMuted`, `isSpeaking`, `spokenText`, `mouthShape` in React
state, and the utterance queue plus the pending completion callback in refs.
`engineQueue` models the utterances handed to `window.speechSynthesis.speak`
and not yet finished (the browser side); `events` is the observable trace:
each submission to the synthesizer and each invocation of the completion
callback, in order.  An utterance is modelled by its (preprocessed) text. -/

inductive SegLang
  | en
  | hi
deriving DecidableEq

structure SpeechSegment where
  text : String
  lang : SegLang
deriving DecidableEq

inductive SpeechEvent
  | submitted (text : String)
  | callbackFired
deriving DecidableEq

structure SpeechState where
  isMuted : Bool
  isSpeaking : Bool
  spokenText : String
  mouthShape : String
  utteranceQueue : List String
  onEndPending : Bool
  engineQueue : List String
  events : List SpeechEvent
deriving DecidableEq

/-- The initial hook state: `useState(false)`, `useState(false)`,
`useState('')`, `useState('X')`, empty refs. -/
def initialSpeechState : SpeechState :=
  { isMuted := false, isSpeaking := false, spokenText := "", mouthShape := "X",
    utteranceQueue := [], onEndPending := false, engineQueue := [], events := [] }

/-- `processQueue`: shift the next utterance and submit it to the voice
engine; on an empty queue, clear the speaking flag, reset the mouth shape and
invoke (then forget) the pending completion callback. -/
def processQueue (s : SpeechState) : SpeechState :=
  match s.utteranceQueue with
  | u :: rest =>
      { s with utteranceQueue := rest,
               engineQueue := s.engineQueue ++ [u],
               events := s.events ++ [SpeechEvent.submitted u] }
  | [] =>
      if s.onEndPending then
        { s with isSpeaking := false, mouthShape := "X",
                 onEndPending := false,
                 events := s.events ++ [SpeechEvent.callbackFired] }
      else
        { s with isSpeaking := false, mouthShape := "X" }

/-- `cancel`: empty the queue, forget the pending callback, stop the engine
(`window.speechSynthesis.cancel()` drops everything submitted), and force the
speaking flag false and the mouth shape neutral.  Total: never throws. -/
def cancel (s : SpeechState) : SpeechState :=
  { s with utteranceQueue := [], onEndPending := false, engineQueue := [],
           isSpeaking := false, mouthShape := "X" }

/-- JavaScript `String.prototype.trim`: strip whitespace from both ends. -/
def jsTrim (t : String) : String :=
  String.mk (((t.toList.dropWhile Char.isWhitespace).reverse.dropWhile Char.isWhitespace).reverse)

/-- Segment filter from `speak`: `s.text && s.text.trim().length > 0`. -/
def filteredSegs (input : List SpeechSegment) : List SpeechSegment :=
  input.filter (fun seg => !(jsTrim seg.text == ""))

/-- The preprocessed utterance texts built by `speak`, in segment order. -/
def processedTexts (input : List SpeechSegment) : List String :=
  (filteredSegs input).map (fun seg => preprocessTextForSpeech seg.text)

/-- `if (onEnd) onEnd()`: the synchronous callback invocation on the muted
and empty-input early returns. -/
def fireIfCallback (s : SpeechState) (hasOnEnd : Bool) : SpeechState :=
  if hasOnEnd then { s with events := s.events ++ [SpeechEvent.callbackFired] } else s

/-- `speak(segments, onEnd)`: early-return (invoking `onEnd` synchronously)
when muted or when filtering leaves no segment; otherwise cancel whatever is
playing, publish the concatenated original text as `spokenText`, install the
preprocessed utterances, remember the callback, set speaking true and the
mouth shape to the initial open shape, and start the queue.  `hasOnEnd`
records whether an `onEnd` callback was supplied. -/
def speak (s : SpeechState) (input : List SpeechSegment) (hasOnEnd : Bool) : SpeechState :=
  if s.isMuted then
    fireIfCallback s hasOnEnd
  else
    let s1 := cancel s
    if (filteredSegs input).isEmpty then
      fireIfCallback s1 hasOnEnd
    else
      processQueue
        { s1 with
            spokenText := String.join ((filteredSegs input).map SpeechSegment.text),
            utteranceQueue := processedTexts input,
            onEndPending := hasOnEnd,
            isSpeaking := true,
            mouthShape := "A" }

/-- The voice engine finishes the utterance in flight: its `onend` handler
runs `processQueue`.  With nothing in flight this is a no-op. -/
def finishEvent (s : SpeechState) : SpeechState :=
  match s.engineQueue with
  | _ :: rest => processQueue { s with engineQueue := rest }
  | [] => s

example :
    (speak initialSpeechState [⟨"Hi", SegLang.en⟩, ⟨"there", SegLang.en⟩] true).events
      = [SpeechEvent.submitted "Hi"] := by decide
example :
    (finishEvent (finishEvent
      (speak initialSpeechState [⟨"Hi", SegLang.en⟩, ⟨"there", SegLang.en⟩] true))).events
      = [SpeechEvent.submitted "Hi", SpeechEvent.submitted "there",
         SpeechEvent.callbackFired] := by decide

/-! ## Queue-drain lemmas

`speak` leaves exactly one utterance in flight and the rest in the hook-side
queue; each finish signal moves at most one utterance into flight.  The two
lemmas below characterise every intermediate state of a drain and the fully
drained state. -/

lemma speak_start (s : SpeechState) (input : List SpeechSegment) (p : String)
    (ps : List String) (hm : s.isMuted = false)
    (hp : processedTexts input = p :: ps) :
    speak s input true =
      { isMuted := s.isMuted, isSpeaking := true,
        spokenText := String.join ((filteredSegs input).map SpeechSegment.text),
        mouthShape := "A", utteranceQueue := ps, onEndPending := true,
        engineQueue := [p], events := s.events ++ [SpeechEvent.submitted p] } := by
  have hne : (filteredSegs input).isEmpty = false := by
    cases hfs : filteredSegs input with
    | nil => simp [processedTexts, hfs] at hp
    | cons a l => simp
  simp only [speak, hm, Bool.false_eq_true, if_false, hne, cancel, hp, processQueue]
  simp

lemma drain_partial (q : List String) (u : String) (s : SpeechState) (k : Nat)
    (hk : k ≤ q.length) (hq : s.utteranceQueue = q) (hu : s.engineQueue = [u]) :
    (finishEvent^[k] s).utteranceQueue = q.drop k
    ∧ (finishEvent^[k] s).engineQueue.length = 1
    ∧ (finishEvent^[k] s).events = s.events ++ (q.take k).map SpeechEvent.submitted
    ∧ (finishEvent^[k] s).onEndPending = s.onEndPending
    ∧ (finishEvent^[k] s).isSpeaking = s.isSpeaking
    ∧ (finishEvent^[k] s).spokenText = s.spokenText
    ∧ (finishEvent^[k] s).isMuted = s.isMuted := by
  induction k generalizing q u s with
  | zero => simp [hq, hu]
  | succ k ih =>
    cases q with
    | nil => simp at hk
    | cons h t =>
      have hk2 : k ≤ t.length := by simpa using hk
      have hstep : finishEvent s =
          { s with utteranceQueue := t, engineQueue := [h],
                   events := s.events ++ [SpeechEvent.submitted h] } := by
        simp [finishEvent, hu, processQueue, hq]
      have hrec := ih t h
        { s with utteranceQueue := t, engineQueue := [h],
                 events := s.events ++ [SpeechEvent.submitted h] } hk2 rfl rfl
      rw [Function.iterate_succ_apply, hstep]
      simpa [List.append_assoc] using hrec

lemma drain_full (q : List String) (u : String) (s : SpeechState)
    (hq : s.utteranceQueue = q) (hu : s.engineQueue = [u])
    (hpend : s.onEndPending = true) :
    finishEvent^[q.length + 1] s =
      { s with utteranceQueue := [], engineQueue := [], isSpeaking := false,
               mouthShape := "X", onEndPending := false,
               events := s.events ++ q.map SpeechEvent.submitted
                           ++ [SpeechEvent.callbackFired] } := by
  induction q generalizing u s with
  | nil =>
    simp [Function.iterate_one, finishEvent, hu, processQueue, hq, hpend]
  | cons h t ih =>
    have hstep : finishEvent s =
        { s with utteranceQueue := t, engineQueue := [h],
                 events := s.events ++ [SpeechEvent.submitted h] } := by
      simp [finishEvent, hu, processQueue, hq]
    have hrec := ih h
      { s with utteranceQueue := t, engineQueue := [h],
               events := s.events ++ [SpeechEvent.submitted h] } rfl rfl hpend
    have hlen : (h :: t).length + 1 = (t.length + 1) + 1 := by simp
    rw [hlen, Function.iterate_succ_apply, hstep, hrec]
    simp

/-- C1: for every `speak` call that begins playback (engine not muted, at
least one non-empty segment), the segments are submitted to the synthesizer
strictly in the order supplied with at most one in flight at a time, and the
completion callback fires exactly once, after the last segment finishes:
the trace after the full drain is the ordered submissions followed by one
callback invocation; before the last segment finishes the trace holds only
submissions (no callback); at every point at most one utterance is in
flight; and once the callback has fired, further finish signals change
nothing (it can never fire again). -/
theorem speak_fifo_callback_once (s : SpeechState) (input : List SpeechSegment)
    (hm : s.isMuted = false) (hne : filteredSegs input ≠ []) :
    ((finishEvent^[(processedTexts input).length] (speak s input true)).events
        = s.events ++ (processedTexts input).map SpeechEvent.submitted
            ++ [SpeechEvent.callbackFired])
    ∧ (∀ k, k < (processedTexts input).length →
        (finishEvent^[k] (speak s input true)).events
          = s.events ++ ((processedTexts input).take (k + 1)).map SpeechEvent.submitted)
    ∧ (∀ k, k ≤ (processedTexts input).length →
        (finishEvent^[k] (speak s input true)).engineQueue.length ≤ 1)
    ∧ finishEvent (finishEvent^[(processedTexts input).length] (speak s input true))
        = finishEvent^[(processedTexts input).length] (speak s input true) := by
  obtain ⟨p, ps, hp⟩ : ∃ p ps, processedTexts input = p :: ps := by
    cases hfs : filteredSegs input with
    | nil => exact absurd hfs hne
    | cons a l =>
      exact ⟨preprocessTextForSpeech a.text,
        l.map (fun seg => preprocessTextForSpeech seg.text),
        by simp [processedTexts, hfs]⟩
  have hstart := speak_start s input p ps hm hp
  have hq : (speak s input true).utteranceQueue = ps := by rw [hstart]
  have hu : (speak s input true).engineQueue = [p] := by rw [hstart]
  have hpend : (speak s input true).onEndPending = true := by rw [hstart]
  have hev : (speak s input true).events = s.events ++ [SpeechEvent.submitted p] := by
    rw [hstart]
  have hfull := drain_full ps p (speak s input true) hq hu hpend
  have hlen : (processedTexts input).length = ps.length + 1 := by simp [hp]
  refine ⟨?_, ?_, ?_, ?_⟩
  · rw [hlen, hfull]
    simp [hev, hp]
  · intro k hk
    have hk2 : k ≤ ps.length := by omega
    have hpart := drain_partial ps p (speak s input true) k hk2 hq hu
    rw [hpart.2.2.1, hev, hp]
    simp [List.append_assoc]
  · intro k hk
    rcases Nat.lt_or_ge k (ps.length + 1) with hlt | hge
    · have hk2 : k ≤ ps.length := by omega
      have hpart := drain_partial ps p (speak s input true) k hk2 hq hu
      omega
    · have hke : k = ps.length + 1 := by omega
      rw [hke, hfull]
      simp
  · rw [hlen, hfull]
    simp [finishEvent]

/-- Witness for C1 at a concrete two-segment input. -/
theorem speak_fifo_callback_once_witness :
    initialSpeechState.isMuted = false
    ∧ filteredSegs [⟨"Namaste", SegLang.hi⟩, ⟨"World", SegLang.en⟩] ≠ []
    ∧ (finishEvent^[(processedTexts
          [⟨"Namaste", SegLang.hi⟩, ⟨"World", SegLang.en⟩]).length]
        (speak initialSpeechState
          [⟨"Namaste", SegLang.hi⟩, ⟨"World", SegLang.en⟩] true)).events
        = initialSpeechState.events
            ++ (processedTexts [⟨"Namaste", SegLang.hi⟩, ⟨"World", SegLang.en⟩]).map
                 SpeechEvent.submitted
            ++ [SpeechEvent.callbackFired] :=
  ⟨rfl, by decide,
    (speak_fifo_callback_once initialSpeechState
      [⟨"Namaste", SegLang.hi⟩, ⟨"World", SegLang.en⟩] rfl (by decide)).1⟩

/-- C3: `cancel()` at any state - in particular with an empty queue and
nothing playing - leaves the speaking flag false, the mouth shape at the
neutral value X, the utterance queue empty, and the pending completion
callback forgotten without ever being invoked (the trace gains no callback
invocation, and a later finish signal is a no-op).  The model is a total
function, so the call cannot throw. -/
theorem cancel_resets_and_forgets (s : SpeechState) :
    (cancel s).isSpeaking = false
    ∧ (cancel s).mouthShape = "X"
    ∧ (cancel s).utteranceQueue = []
    ∧ (cancel s).onEndPending = false
    ∧ (cancel s).events = s.events
    ∧ finishEvent (cancel s) = cancel s := by
  exact ⟨rfl, rfl, rfl, rfl, rfl, by simp [finishEvent, cancel]⟩

/-- C10: `cancel()` leaves the published caption text and the mute flag
unchanged: for every state they are framed, and after a queue-starting
`speak` the concatenated original text it published survives a cancel. -/
theorem cancel_preserves_caption_and_mute (s : SpeechState)
    (input : List SpeechSegment) (hm : s.isMuted = false)
    (hne : filteredSegs input ≠ []) :
    (cancel (speak s input true)).spokenText
        = String.join ((filteredSegs input).map SpeechSegment.text)
    ∧ (cancel (speak s input true)).isMuted = s.isMuted
    ∧ (∀ t : SpeechState, (cancel t).spokenText = t.spokenText
        ∧ (cancel t).isMuted = t.isMuted) := by
  obtain ⟨p, ps, hp⟩ : ∃ p ps, processedTexts input = p :: ps := by
    cases hfs : filteredSegs input with
    | nil => exact absurd hfs hne
    | cons a l =>
      exact ⟨preprocessTextForSpeech a.text,
        l.map (fun seg => preprocessTextForSpeech seg.text),
        by simp [processedTexts, hfs]⟩
  rw [speak_start s input p ps hm hp]
  exact ⟨rfl, rfl, fun t => ⟨rfl, rfl⟩⟩

/-- Witness for C10 at a concrete input. -/
theorem cancel_preserves_caption_and_mute_witness :
    initialSpeechState.isMuted = false
    ∧ filteredSegs [⟨"Hi", SegLang.en⟩] ≠ []
    ∧ (cancel (speak initialSpeechState [⟨"Hi", SegLang.en⟩] true)).spokenText
        = String.join ((filteredSegs [⟨"Hi", SegLang.en⟩]).map SpeechSegment.text)
    ∧ (cancel (speak initialSpeechState [⟨"Hi", SegLang.en⟩] true)).isMuted
        = initialSpeechState.isMuted :=
  ⟨rfl, by decide,
    (cancel_preserves_caption_and_mute initialSpeechState [⟨"Hi", SegLang.en⟩]
      rfl (by decide)).1,
    (cancel_preserves_caption_and_mute initialSpeechState [⟨"Hi", SegLang.en⟩]
      rfl (by decide)).2.1⟩

/-- C8 counterexample: the source substitution is `/use/gi` with no word
boundary, so the letter sequence inside another word is rewritten too:
"house" is preprocessed to "hoyuuzh", not left alone as the whole-word-only
claim requires. -/
theorem preprocess_use_not_whole_word :
    preprocessTextForSpeech "house" = "hoyuuzh"
    ∧ preprocessTextForSpeech "house" ≠ "house" := by decide

/-- C8 (amended): text normalization rewrites every `<digits>.<digits>`
decimal so the fraction is spoken digit-by-digit and substitutes every
case-insensitive occurrence of the letter sequence "use" (also inside longer
words) with "yuuzh"; the rewrites affect only the text handed to the
synthesizer, never the published/displayed text: `speak` publishes the
concatenated original segment texts as `spokenText` while every utterance it
hands to the engine is the preprocessed text.  In particular "2.5 use it" is
synthesized as "2 point 5 yuuzh it". -/
theorem preprocess_affects_synthesis_only (s : SpeechState)
    (input : List SpeechSegment) (hm : s.isMuted = false)
    (hne : filteredSegs input ≠ []) :
    preprocessTextForSpeech "2.5 use it" = "2 point 5 yuuzh it"
    ∧ (speak s input true).spokenText
        = String.join ((filteredSegs input).map SpeechSegment.text)
    ∧ (speak s input true).engineQueue ++ (speak s input true).utteranceQueue
        = processedTexts input := by
  obtain ⟨p, ps, hp⟩ : ∃ p ps, processedTexts input = p :: ps := by
    cases hfs : filteredSegs input with
    | nil => exact absurd hfs hne
    | cons a l =>
      exact ⟨preprocessTextForSpeech a.text,
        l.map (fun seg => preprocessTextForSpeech seg.text),
        by simp [processedTexts, hfs]⟩
  rw [speak_start s input p ps hm hp]
  exact ⟨by decide, rfl, by simp [hp]⟩

/-- Witness for C8 (amended): the displayed text of the single-segment
utterance "2.5 use it" stays intact while the engine receives
"2 point 5 yuuzh it". -/
theorem preprocess_affects_synthesis_only_witness :
    initialSpeechState.isMuted = false
    ∧ filteredSegs [⟨"2.5 use it", SegLang.en⟩] ≠ []
    ∧ (speak initialSpeechState [⟨"2.5 use it", SegLang.en⟩] true).spokenText
        = "2.5 use it"
    ∧ (speak initialSpeechState [⟨"2.5 use it", SegLang.en⟩] true).engineQueue
        ++ (speak initialSpeechState [⟨"2.5 use it", SegLang.en⟩] true).utteranceQueue
        = ["2 point 5 yuuzh it"] := by
  refine ⟨rfl, by decide, ?_, ?_⟩
  · rw [(preprocess_affects_synthesis_only initialSpeechState
      [⟨"2.5 use it", SegLang.en⟩] rfl (by decide)).2.1]
    decide
  · rw [(preprocess_affects_synthesis_only initialSpeechState
      [⟨"2.5 use it", SegLang.en⟩] rfl (by decide)).2.2]
    decide

/-! ## Session Orchestrator (App.tsx)

`TutorState` mirrors the closed enumeration in types.ts. -/

inductive TutorState
  | IDLE
  | SELECTING_SKILL
  | LOADING_LESSON
  | EXPLAINING
  | AWAITING_TASK
  | AWAITING_CHOICE
  | AWAITING_CONTINUE
  | EVALUATING
  | CHATTING
  | CLARIFYING_DOUBT
  | CORRECT
  | INCORRECT
  | COURSE_COMPLETED
  | ERROR
deriving DecidableEq

/-- The `canListen` condition of the listening-gate `useEffect` in App.tsx:
`(state is AWAITING_TASK or INCORRECT or AWAITING_CHOICE) && !isLoading &&
!isSpeaking && isSpeechSupported`. -/
def listeningGate (st : TutorState) (isLoading isSpeaking isSupported : Bool) : Bool :=
  (st == TutorState.AWAITING_TASK || st == TutorState.INCORRECT
      || st == TutorState.AWAITING_CHOICE)
    && !isLoading && !isSpeaking && isSupported

/-- The effect body: start listening when the gate holds and the engine is
idle, stop it when the gate fails and it is running, otherwise leave it.
The effect re-runs on every change of its dependencies (state, isLoading,
isSpeaking, isSupported, isListening), so this function is applied to the
current value of every input. -/
def listeningAfterEffect (st : TutorState)
    (isLoading isSpeaking isSupported wasListening : Bool) : Bool :=
  let canListen := listeningGate st isLoading isSpeaking isSupported
  if canListen && !wasListening then true
  else if !canListen && wasListening then false
  else wasListening

/-- C2: after the gate effect runs, the Speech Input Engine is listening if
and only if the orchestrator state is AWAITING_TASK, INCORRECT or
AWAITING_CHOICE, no content fetch is in flight, speech output is not
speaking, and the environment supports recognition - independent of whether
it was listening before. -/
theorem listening_gate_invariant (st : TutorState)
    (isLoading isSpeaking isSupported wasListening : Bool) :
    listeningAfterEffect st isLoading isSpeaking isSupported wasListening = true
      ↔ ((st = TutorState.AWAITING_TASK ∨ st = TutorState.INCORRECT
            ∨ st = TutorState.AWAITING_CHOICE)
          ∧ isLoading = false ∧ isSpeaking = false ∧ isSupported = true) := by
  revert isLoading isSpeaking isSupported wasListening
  cases st <;> decide

/-! ## Streak and activity-log update (App.tsx, handleNextStep)

Calendar days are abstracted to integer day numbers: `today` is the current
day, `today - 1` is yesterday; `isToday d` is `d = today` and `isYesterday d`
is `d = today - 1`.  `lastActivityDate` may be absent (`none`).  The
branching mirrors the source:
`if (!last || !isToday(last)) { if (last && isYesterday(last)) streak++ else
streak = 1 }`. -/

def streakUpdate (lastActivityDate : Option Int) (today : Int)
    (currentStreak : Nat) : Nat :=
  match lastActivityDate with
  | none => 1
  | some d =>
    if d = today then currentStreak
    else if d = today - 1 then currentStreak + 1
    else 1

/-- Activity-log update from `handleNextStep`: find the first entry for
today; if present, add the earned points to it in place, otherwise append a
fresh entry.  An entry is a (day, points) pair. -/
def activityLogUpdate (log : List (Int × Nat)) (today : Int) (pts : Nat) :
    List (Int × Nat) :=
  match log.findIdx? (fun e => e.1 == today) with
  | some i => log.mapIdx (fun j e => if j = i then (e.1, e.2 + pts) else e)
  | none => log ++ [(today, pts)]

/-- C5: on completing the last lesson step, a `lastActivityDate` of exactly
yesterday increments the streak by 1; a `lastActivityDate` that is neither
today nor yesterday (including absent) resets it to 1; a `lastActivityDate`
of today leaves the streak unchanged, and when the log already holds an
entry for today the earned points are added to that entry in place - the log
keeps its length and every other entry - instead of a duplicate entry being
appended. -/
theorem streak_and_log_update (today : Int) (cur pts : Nat)
    (log : List (Int × Nat)) :
    streakUpdate (some (today - 1)) today cur = cur + 1
    ∧ (∀ lastDate : Option Int,
        (lastDate = none
          ∨ ∀ d, lastDate = some d → d ≠ today ∧ d ≠ today - 1) →
        streakUpdate lastDate today cur = 1)
    ∧ streakUpdate (some today) today cur = cur
    ∧ (∀ i, log.findIdx? (fun e => e.1 == today) = some i →
        (activityLogUpdate log today pts).length = log.length
        ∧ (∀ j, j ≠ i →
            (activityLogUpdate log today pts).getD j (0, 0) = log.getD j (0, 0))
        ∧ (activityLogUpdate log today pts).getD i (0, 0)
            = ((log.getD i (0, 0)).1, (log.getD i (0, 0)).2 + pts)) := by
  have hyne : today - 1 ≠ today := by omega
  refine ⟨by simp [streakUpdate, hyne], ?_, by simp [streakUpdate], ?_⟩
  · intro lastDate h
    cases lastDate with
    | none => simp [streakUpdate]
    | some d =>
      rcases h with h | h
      · simp at h
      · obtain ⟨h1, h2⟩ := h d rfl
        simp [streakUpdate, h1, h2]
  · intro i hi
    have hiLt : i < log.length := List.findIdx?_eq_some_iff_findIdx_eq.mp hi |>.1
    refine ⟨by simp [activityLogUpdate, hi], ?_, ?_⟩
    · intro j hj
      rcases Nat.lt_or_ge j log.length with hjl | hjl
      · simp [activityLogUpdate, hi, List.getD_eq_getElem?_getD,
          List.getElem?_eq_getElem hjl, List.getElem_mapIdx, hj]
      · have h1 : log.getD j (0, 0) = (0, 0) := by
          simp [List.getD_eq_getElem?_getD, List.getElem?_eq_none hjl]
        have h2 : (activityLogUpdate log today pts).getD j (0, 0) = (0, 0) := by
          have : (activityLogUpdate log today pts).length = log.length := by
            simp [activityLogUpdate, hi]
          simp [List.getD_eq_getElem?_getD, List.getElem?_eq_none (this ▸ hjl)]
        rw [h1, h2]
    · simp [activityLogUpdate, hi, List.getD_eq_getElem?_getD,
        List.getElem?_eq_getElem hiLt, List.getElem_mapIdx]

/-- Witness for C5 at concrete data: today is day 10, yesterday day 9, the
log already has 7 points for today. -/
theorem streak_and_log_update_witness :
    streakUpdate (some (10 - 1)) 10 3 = 3 + 1
    ∧ streakUpdate none 10 3 = 1
    ∧ streakUpdate (some 10) 10 3 = 3
    ∧ (activityLogUpdate [((10 : Int), 7)] 10 5).length = 1
    ∧ (activityLogUpdate [((10 : Int), 7)] 10 5).getD 0 (0, 0) = (10, 12) := by
  have h := streak_and_log_update 10 3 5 [((10 : Int), 7)]
  have hfind : [((10 : Int), 7)].findIdx? (fun e => e.1 == (10 : Int)) = some 0 := by
    decide
  refine ⟨h.1, h.2.1 none (Or.inl rfl), h.2.2.1, (h.2.2.2 0 hfind).1, ?_⟩
  rw [(h.2.2.2 0 hfind).2.2]
  decide

/-! ## Lesson validation (geminiServices, generateLessonContent)

A lesson step is EXPLANATION, MULTIPLE_CHOICE or CODE_TASK.  A
MULTIPLE_CHOICE step carries its choices and a `correctChoiceIndex` that may
be absent (`none`, covering null/undefined/non-number in the source). -/

inductive LessonStep
  | explanation (content : String)
  | multipleChoice (question : String) (choices : List String)
      (correctChoiceIndex : Option Int)
  | codeTask (mission : String)
deriving DecidableEq

/-- The per-step validity test of `generateLessonContent`:
`correctChoiceIndex !== null && !== undefined && typeof === 'number' &&
choices && correctChoiceIndex < choices.length`.  Note there is no lower
bound: only the upper bound is checked. -/
def isValidStep : LessonStep → Bool
  | LessonStep.multipleChoice _ choices idx =>
    match idx with
    | none => false
    | some i => decide (i < (choices.length : Int))
  | _ => true

/-- The validation and filtering of `generateLessonContent` after JSON
parsing: reject an empty step list outright, filter the steps through
`isValidStep`, and fail when the filter emptied an originally non-empty
list; otherwise return the validated steps. -/
def validateLessonSteps (steps : List LessonStep) : Except String (List LessonStep) :=
  if steps.length = 0 then
    Except.error "Invalid lesson format from AI."
  else
    if (steps.filter isValidStep).length = 0 ∧ 0 < steps.length then
      Except.error
        "The AI returned a lesson where all steps were invalid. Please try generating it again."
    else
      Except.ok (steps.filter isValidStep)

/-- C4 counterexample: a MULTIPLE_CHOICE step whose `correctChoiceIndex` is
-1 is out of range for its two choices, yet it survives validation and is
returned to the app as an answerable step - the filter checks only the
upper bound. -/
theorem validate_keeps_negative_index :
    validateLessonSteps
        [LessonStep.multipleChoice "Pick one" ["choice A", "choice B"] (some (-1))]
      = Except.ok
          [LessonStep.multipleChoice "Pick one" ["choice A", "choice B"] (some (-1))]
    ∧ ((-1 : Int) < 0 ∨ (-1 : Int) ≥ 2) := by
  exact ⟨rfl, by decide⟩

/-- C4 (amended): every MULTIPLE_CHOICE step whose `correctChoiceIndex` is
missing or at least `choices.length` is filtered out before the lesson is
used (steps with a negative index are not filtered), and if the filter
removes every step of an originally non-empty step list the fetch fails with
an error rather than yielding an empty lesson. -/
theorem validate_filters_and_fails (steps : List LessonStep) :
    (∀ out, validateLessonSteps steps = Except.ok out →
      out = steps.filter isValidStep
      ∧ ∀ q cs idx, LessonStep.multipleChoice q cs idx ∈ out →
          ∃ i, idx = some i ∧ i < (cs.length : Int))
    ∧ (steps ≠ [] → steps.filter isValidStep = [] →
        ∃ msg, validateLessonSteps steps = Except.error msg) := by
  constructor
  · intro out hout
    have hsteps : out = steps.filter isValidStep := by
      unfold validateLessonSteps at hout
      by_cases h0 : steps.length = 0
      · rw [if_pos h0] at hout
        simp at hout
      · rw [if_neg h0] at hout
        by_cases h1 : (steps.filter isValidStep).length = 0 ∧ 0 < steps.length
        · rw [if_pos h1] at hout
          simp at hout
        · rw [if_neg h1] at hout
          injection hout with h
          exact h.symm
    refine ⟨hsteps, ?_⟩
    intro q cs idx hmem
    rw [hsteps] at hmem
    have hvalid := (List.mem_filter.mp hmem).2
    cases idx with
    | none => simp [isValidStep] at hvalid
    | some i =>
      refine ⟨i, rfl, ?_⟩
      simpa [isValidStep] using hvalid
  · intro hne hemp
    have h0 : ¬ steps.length = 0 := by
      simpa [List.length_eq_zero] using hne
    have h1 : (steps.filter isValidStep).length = 0 ∧ 0 < steps.length := by
      constructor
      · simp [hemp]
      · omega
    refine ⟨"The AI returned a lesson where all steps were invalid. Please try generating it again.", ?_⟩
    unfold validateLessonSteps
    rw [if_neg h0, if_pos h1]

/-- Witness for C4 (amended): a lesson whose only valid step is the
explanation keeps it and drops the MULTIPLE_CHOICE step with a missing
index; a lesson of a single index-too-large step fails hard. -/
theorem validate_filters_and_fails_witness :
    [LessonStep.explanation "hi"]
        = [LessonStep.multipleChoice "q" ["a"] none,
           LessonStep.explanation "hi"].filter isValidStep
    ∧ (∃ msg, validateLessonSteps
          [LessonStep.multipleChoice "q" ["a", "b"] (some 2)]
        = Except.error msg) := by
  refine ⟨?_, ?_⟩
  · exact ((validate_filters_and_fails
      [LessonStep.multipleChoice "q" ["a"] none,
       LessonStep.explanation "hi"]).1 [LessonStep.explanation "hi"] rfl).1
  · exact (validate_filters_and_fails
      [LessonStep.multipleChoice "q" ["a", "b"] (some 2)]).2
        (by decide) (by decide)

/-! ## Provider error conversion (geminiServices, handleApiError)

A thrown JavaScript value is either an `Error` carrying a message or some
other value (which has no message).  `listContainsSub` is
`String.prototype.includes` on character lists. -/

def listStartsWith : List Char → List Char → Bool
  | _, [] => true
  | [], _ :: _ => false
  | a :: as, b :: bs => a == b && listStartsWith as bs

def listContainsSub : List Char → List Char → Bool
  | [], needle => listStartsWith [] needle
  | c :: rest, needle => listStartsWith (c :: rest) needle || listContainsSub rest needle

def strContains (hay needle : String) : Bool :=
  listContainsSub hay.toList needle.toList

inductive JsThrown
  | jsError (message : String)
  | nonError
deriving DecidableEq

/-- The fixed quota-exceeded wording of `handleApiError`. -/
def quotaMessage : String :=
  "You\x27ve reached the daily API quota for this model. Please try again tomorrow."

/-- `handleApiError(error, context, defaultMessage)`: return the
quota-exceeded message when the thrown value is an `Error` whose message
contains "429" or "RESOURCE_EXHAUSTED", otherwise the operation-specific
default message. -/
def handleApiError (e : JsThrown) (defaultMessage : String) : String :=
  match e with
  | JsThrown.jsError message =>
    if strContains message "429" || strContains message "RESOURCE_EXHAUSTED" then
      quotaMessage
    else
      defaultMessage
  | JsThrown.nonError => defaultMessage

/-- C9: every provider failure surfaces as exactly one of two fixed
messages: the result of `handleApiError` is always either the quota message
or the supplied operation-specific default (never the raw provider error
text); it is the quota message exactly on an `Error` whose message contains
"429" or "RESOURCE_EXHAUSTED", and the default otherwise. -/
theorem handle_api_error_two_messages (e : JsThrown) (defaultMessage : String) :
    (handleApiError e defaultMessage = quotaMessage
      ∨ handleApiError e defaultMessage = defaultMessage)
    ∧ (∀ m, e = JsThrown.jsError m →
        (strContains m "429" || strContains m "RESOURCE_EXHAUSTED") = true →
        handleApiError e defaultMessage = quotaMessage)
    ∧ (∀ m, e = JsThrown.jsError m →
        (strContains m "429" || strContains m "RESOURCE_EXHAUSTED") = false →
        handleApiError e defaultMessage = defaultMessage)
    ∧ (e = JsThrown.nonError → handleApiError e defaultMessage = defaultMessage) := by
  refine ⟨?_, ?_, ?_, ?_⟩
  · cases e with
    | jsError m =>
      cases hx : (strContains m "429" || strContains m "RESOURCE_EXHAUSTED") with
      | true => exact Or.inl (by simp [handleApiError, hx])
      | false => exact Or.inr (by simp [handleApiError, hx])
    | nonError => exact Or.inr rfl
  · rintro m rfl h
    simp [handleApiError, h]
  · rintro m rfl h
    simp [handleApiError, h]
  · rintro rfl
    rfl

/-- Witness for C9: a rate-limit error maps to the quota message, a generic
error maps to the operation default. -/
theorem handle_api_error_two_messages_witness :
    handleApiError (JsThrown.jsError "got status 429 from server")
        "I had trouble preparing the next lesson. Please try again."
      = quotaMessage
    ∧ handleApiError (JsThrown.jsError "boom")
        "I had trouble preparing the next lesson. Please try again."
      = "I had trouble preparing the next lesson. Please try again." := by
  refine ⟨?_, ?_⟩
  · exact (handle_api_error_two_messages
      (JsThrown.jsError "got status 429 from server")
      "I had trouble preparing the next lesson. Please try again.").2.1
      _ rfl (by decide)
  · exact (handle_api_error_two_messages (JsThrown.jsError "boom")
      "I had trouble preparing the next lesson. Please try again.").2.2.1
      _ rfl (by decide)

/-! ## Guided-lesson code submission (App.tsx, handleSubmitCode, tutor mode)

The handler's observable effects are modelled as an ordered event timeline.
`speechDone` marks the point at which the feedback utterance finishes; the
events after it are those performed by the completion callback passed to
`speak`.  A tiered hint carries its three disclosure levels. -/

structure Hint where
  conceptual : String
  direct : String
  solution : String
deriving DecidableEq

inductive SubmitEvent
  | setLoading (b : Bool)
  | setState (st : TutorState)
  | setAttempts (n : Nat)
  | setHint (h : Option Hint)
  | speakStart (feedback : String)
  | speechDone
deriving DecidableEq

def isSpeechDone : SubmitEvent → Bool
  | SubmitEvent.speechDone => true
  | _ => false

/-- The tutor-mode branch of `handleSubmitCode` once the evaluation verdict
arrives, as the ordered timeline of its effects.  Correct verdict: reset the
attempt counter and the hint, set AWAITING_CONTINUE immediately, start the
feedback speech (whose completion callback sets AWAITING_CONTINUE again);
the `finally` clears the loading flag before the speech finishes.
Incorrect verdict: increment the attempt counter, store the returned hint,
start the feedback speech with no callback and set INCORRECT immediately. -/
def handleSubmitCodeTutorEvents (attempts : Nat) (isCorrect : Bool)
    (feedback : String) (hint : Option Hint) : List SubmitEvent :=
  [SubmitEvent.setLoading true, SubmitEvent.setState TutorState.EVALUATING] ++
  (if isCorrect then
    [SubmitEvent.setAttempts 0, SubmitEvent.setHint none,
     SubmitEvent.setState TutorState.AWAITING_CONTINUE,
     SubmitEvent.speakStart feedback, SubmitEvent.setLoading false,
     SubmitEvent.speechDone, SubmitEvent.setState TutorState.AWAITING_CONTINUE]
  else
    [SubmitEvent.setAttempts (attempts + 1), SubmitEvent.setHint hint,
     SubmitEvent.speakStart feedback, SubmitEvent.setState TutorState.INCORRECT,
     SubmitEvent.setLoading false, SubmitEvent.speechDone])

/-- C6 counterexample: on a correct verdict the transition to
AWAITING_CONTINUE happens synchronously in the handler, before the feedback
speech completes - the timeline up to `speechDone` already contains the
transition, refuting "only after the feedback speech completes (not
before)". -/
theorem submit_code_correct_transitions_before_speech :
    ((handleSubmitCodeTutorEvents 0 true "Shabash!" none).takeWhile
        (fun e => !(isSpeechDone e))).contains
      (SubmitEvent.setState TutorState.AWAITING_CONTINUE) = true := by decide

/-- C6 (amended): on a correct verdict the incorrect-attempt counter and the
stored hint are reset and the state transitions to AWAITING_CONTINUE
immediately, before the feedback speech completes (the speech-completion
callback then re-asserts AWAITING_CONTINUE); on an incorrect verdict the
attempt counter is incremented, the returned tiered hint is stored, and the
state transitions to INCORRECT immediately, without waiting for speech
completion. -/
theorem submit_code_transitions (attempts : Nat) (feedback : String)
    (hint : Option Hint) :
    ((handleSubmitCodeTutorEvents attempts true feedback none).contains
        (SubmitEvent.setAttempts 0) = true
      ∧ (handleSubmitCodeTutorEvents attempts true feedback none).contains
          (SubmitEvent.setHint none) = true
      ∧ ((handleSubmitCodeTutorEvents attempts true feedback none).takeWhile
          (fun e => !(isSpeechDone e))).contains
            (SubmitEvent.setState TutorState.AWAITING_CONTINUE) = true
      ∧ ((handleSubmitCodeTutorEvents attempts true feedback none).dropWhile
          (fun e => !(isSpeechDone e))).contains
            (SubmitEvent.setState TutorState.AWAITING_CONTINUE) = true)
    ∧ ((handleSubmitCodeTutorEvents attempts false feedback hint).contains
        (SubmitEvent.setAttempts (attempts + 1)) = true
      ∧ (handleSubmitCodeTutorEvents attempts false feedback hint).contains
          (SubmitEvent.setHint hint) = true
      ∧ ((handleSubmitCodeTutorEvents attempts false feedback hint).takeWhile
          (fun e => !(isSpeechDone e))).contains
            (SubmitEvent.setState TutorState.INCORRECT) = true) := by
  refine ⟨⟨?_, ?_, ?_, ?_⟩, ⟨?_, ?_, ?_⟩⟩ <;>
    simp [handleSubmitCodeTutorEvents, List.takeWhile, List.dropWhile, isSpeechDone]

/-! ## Chat exchange failure handling (App.tsx, handleSendChatMessage)

The pieces of component state the handler reads and writes.  A single
invocation of the async handler closes over the render-time values of
`tutorState` and `stateBeforeDoubt`: calling `setStateBeforeDoubt(tutorState)`
schedules a state update but does NOT change the constant `stateBeforeDoubt`
the running closure read at creation - so the `catch` block's
`setTutorState(stateBeforeDoubt)` restores the closure's (previous) snapshot,
not the state this invocation just saved. -/

inductive Sender
  | user
  | ai
deriving DecidableEq

structure ChatMessage where
  sender : Sender
  text : String
  isSystem : Bool
deriving DecidableEq

structure ChatState where
  tutorState : TutorState
  stateBeforeDoubt : TutorState
  conversationHistory : List ChatMessage
  chatError : Option String
  lastFailedMessage : Option (String × Option String)
deriving DecidableEq

inductive ChatOutcome
  | success (responseText : String)
  | failure (errorMessage : String)
deriving DecidableEq

/-- One run of the non-MCQ chat path of `handleSendChatMessage` on component
state `s`, sending `message` (with an optional attachment name), with the
provider call resolving to `outcome`.  `followUpState` is the mode-dependent
success state (CLARIFYING_DOUBT in tutor mode, AWAITING_TASK otherwise).
On failure the code runs `setTutorState(stateBeforeDoubt)` where
`stateBeforeDoubt` is the closure value `s.stateBeforeDoubt` - the snapshot
taken by this very invocation (`setStateBeforeDoubt(tutorState)`) is not yet
visible to it. -/
def chatExchange (s : ChatState) (message : String) (attachment : Option String)
    (isSystem : Bool) (outcome : ChatOutcome) (followUpState : TutorState) :
    ChatState :=
  let s1 : ChatState :=
    { s with
        conversationHistory :=
          s.conversationHistory ++ [⟨Sender.user, message, isSystem⟩],
        stateBeforeDoubt := s.tutorState,
        tutorState := TutorState.CHATTING,
        chatError := none,
        lastFailedMessage := none }
  match outcome with
  | ChatOutcome.success responseText =>
    { s1 with
        conversationHistory :=
          s1.conversationHistory ++ [⟨Sender.ai, responseText, false⟩],
        tutorState := followUpState }
  | ChatOutcome.failure errorMessage =>
    { s1 with
        chatError := some errorMessage,
        lastFailedMessage := some (message, attachment),
        tutorState := s.stateBeforeDoubt }

/-- C7: the claim says a failed chat exchange restores the state that was
active immediately before that exchange began.  The code instead restores
the closure's stale `stateBeforeDoubt` snapshot from before the PREVIOUS
exchange: sending the first chat message from AWAITING_CHOICE (with the
initial `stateBeforeDoubt` default AWAITING_TASK) and failing lands in
AWAITING_TASK, not AWAITING_CHOICE.  The failed outgoing message and its
attachment are retained for retry, as the claim says. -/
theorem chat_failure_restores_stale_state :
    (chatExchange
        { tutorState := TutorState.AWAITING_CHOICE,
          stateBeforeDoubt := TutorState.AWAITING_TASK,
          conversationHistory := [], chatError := none, lastFailedMessage := none }
        "What does this mean?" none false
        (ChatOutcome.failure "network error") TutorState.CLARIFYING_DOUBT).tutorState
      = TutorState.AWAITING_TASK
    ∧ (chatExchange
        { tutorState := TutorState.AWAITING_CHOICE,
          stateBeforeDoubt := TutorState.AWAITING_TASK,
          conversationHistory := [], chatError := none, lastFailedMessage := none }
        "What does this mean?" none false
        (ChatOutcome.failure "network error") TutorState.CLARIFYING_DOUBT).tutorState
      ≠ TutorState.AWAITING_CHOICE
    ∧ (chatExchange
        { tutorState := TutorState.AWAITING_CHOICE,
          stateBeforeDoubt := TutorState.AWAITING_TASK,
          conversationHistory := [], chatError := none, lastFailedMessage := none }
        "What does this mean?" none false
        (ChatOutcome.failure "network error") TutorState.CLARIFYING_DOUBT).lastFailedMessage
      = some ("What does this mean?", none) := by
  exact ⟨rfl, by decide, rfl⟩
